import Mathlib

/-!
Verification of the single-file Flask chat application (`webapp.py`).

The file shallowly embeds:
* the browser client embedded in `INDEX_HTML` (history persistence via
  `localStorage` with `JSON.stringify` and `JSON.parse`, the
  `renderMessages` escaping and linkifying pipeline, and `sendMessage`);
* the server `/api/chat` handler `chat` (validation, the conversion of the
  posted history into the upstream message list, and the error contract
  around the upstream completion call).

JavaScript and Python values that can travel through JSON are modelled by
the inductive type `JsonValue`.  Host-level behaviours are modelled as
follows: an uncaught Python exception escaping the handler is an
`Except.error`; `JSON.stringify` and `JSON.parse` are implemented from the
JSON standard (the serializer emits exactly the canonical text the browser
produces for an array of role and content records, and the parser is a
fuelled recursive-descent JSON reader).
-/

namespace Webapp

/-- A chat message record, the shape `\x7brole, content\x7d` used by both the
client history and the upstream request list. -/
structure Message where
  role : String
  content : String
deriving DecidableEq, Repr

/-- JSON values, the data travelling between client, server and storage. The
`num` constructor keeps the raw numeric token since no behaviour in the
program depends on numeric values. -/
inductive JsonValue where
  | null
  | bool (b : Bool)
  | num (tok : String)
  | str (s : String)
  | arr (elems : List JsonValue)
  | obj (fields : List (String × JsonValue))

/-- Whether a JSON value is an array (a Python `list` after decoding). -/
def JsonValue.isArr : JsonValue → Bool
  | .arr _ => true
  | _ => false

/-- Whether a JSON value is an object (a Python `dict` after decoding). -/
def JsonValue.isObj : JsonValue → Bool
  | .obj _ => true
  | _ => false

/-- Lookup of a key in a decoded JSON object.  JSON decoding into a Python
dict or a JavaScript object keeps the last occurrence of a duplicated key,
so the lookup prefers later fields. -/
def jsonGet (fields : List (String × JsonValue)) (k : String) : Option JsonValue :=
  match fields with
  | [] => none
  | (k', v) :: rest =>
    match jsonGet rest k with
    | some v' => some v'
    | none => if k' = k then some v else none

/-! ## Client rendering pipeline (`renderMessages`, `escapeHtml`, `linkify`)

`renderMessages` sets each message element's HTML to
`linkify(escapeHtml(m.content)).replace(/\n/g,'<br>')`. -/

/-- One character of `escapeHtml`: the replacement table
for the regex class containing ampersand, angle brackets, double quote and
apostrophe. -/
def escChar (c : Char) : List Char :=
  if c == '&' then "&amp;".toList
  else if c == '<' then "&lt;".toList
  else if c == '>' then "&gt;".toList
  else if c == '"' then "&quot;".toList
  else if c.toNat == 39 then "&#039;".toList
  else [c]

/-- `escapeHtml`: global replacement of every HTML-sensitive character. -/
def escapeHtml : List Char → List Char
  | [] => []
  | c :: l => escChar c ++ escapeHtml l

/-- The whitespace class of the JavaScript regular-expression escape `\s`. -/
def jsRegexWs (c : Char) : Bool :=
  c == ' ' || c == '\t' || c == '\n' || c == '\r' ||
  c.toNat == 11 || c.toNat == 12 || c.toNat == 0xa0 || c.toNat == 0x1680 ||
  (decide (0x2000 ≤ c.toNat) && decide (c.toNat ≤ 0x200a)) ||
  c.toNat == 0x2028 || c.toNat == 0x2029 || c.toNat == 0x202f ||
  c.toNat == 0x205f || c.toNat == 0x3000 || c.toNat == 0xfeff

/-- Length of the match of `https?:\/\/[^\s]+` at the head of the list,
`0` when there is no match there.  The optional `s` backtracks exactly as
the regex engine does: `https://` is preferred, `http://` is the fallback,
and at least one non-whitespace character must follow the scheme. -/
def urlLen (l : List Char) : Nat :=
  match l with
  | 'h' :: 't' :: 't' :: 'p' :: 's' :: ':' :: '/' :: '/' :: rest =>
    let k := (rest.takeWhile (fun c => !jsRegexWs c)).length
    if k == 0 then 0 else 8 + k
  | 'h' :: 't' :: 't' :: 'p' :: ':' :: '/' :: '/' :: rest =>
    let k := (rest.takeWhile (fun c => !jsRegexWs c)).length
    if k == 0 then 0 else 7 + k
  | _ => 0

/-- The anchor text substituted for a matched URL:
the replacement template of `linkify` with `$1` filled in twice. -/
def anchorOf (url : List Char) : List Char :=
  "<a href=\"".toList ++ url ++ "\" target=\"_blank\" rel=\"noopener\">".toList ++
    url ++ "</a>".toList

/-- `linkify`: the global regex replacement, scanning left to right,
emitting unmatched characters unchanged and replacing each match with the
anchor template, resuming after the match. -/
def linkifyAux (l : List Char) : List Char :=
  match l with
  | [] => []
  | c :: rest =>
    if _h : urlLen (c :: rest) = 0 then c :: linkifyAux rest
    else
      anchorOf ((c :: rest).take (urlLen (c :: rest))) ++
        linkifyAux ((c :: rest).drop (urlLen (c :: rest)))
termination_by l.length
decreasing_by
  all_goals simp only [List.length_drop, List.length_cons]
  all_goals omega

/-- The trailing `.replace(/\n/g,'<br>')` of the rendering pipeline. -/
def nl2br : List Char → List Char
  | [] => []
  | c :: l => (if c == '\n' then "<br>".toList else [c]) ++ nl2br l

/-- The HTML assigned to a rendered message's content element:
`linkify(escapeHtml(content)).replace(/\n/g,'<br>')`. -/
def renderContent (content : String) : List Char :=
  nl2br (linkifyAux (escapeHtml content.data))

/-! Substring occurrence, used to state that the rendered markup never
contains a raw tag. -/

/-- Whether `pat` is an initial segment of `l`. -/
def startsWithB : List Char → List Char → Bool
  | [], _ => true
  | _ :: _, [] => false
  | p :: ps, c :: cs => p == c && startsWithB ps cs

/-- Whether `pat` occurs contiguously anywhere in `l`. -/
def occursB (pat : List Char) (l : List Char) : Bool :=
  match l with
  | [] => startsWithB pat []
  | _ :: t => startsWithB pat l || occursB pat t

/-! ## Client state and `sendMessage` -/

/-- The outcome of the `fetch` call as observed by `sendMessage`:
a successful response whose JSON carries a string `reply`, a non-ok HTTP
response with its status text, or a thrown error (network failure or
JSON decode failure) with its message. -/
inductive FetchResult where
  | ok (reply : String)
  | httpFail (statusText : String)
  | jsErr (message : String)

/-- The typing placeholder pushed by `sendMessage` while the request is in
flight. -/
def placeholderMsg : Message := ⟨"assistant", "…"⟩

/-- The whitespace class stripped by JavaScript `String.prototype.trim`. -/
def jsTrimWs (c : Char) : Bool :=
  c == '\t' || c == '\n' || c.toNat == 11 || c.toNat == 12 || c == '\r' ||
  c == ' ' || c.toNat == 0xa0 || c.toNat == 0x1680 ||
  (decide (0x2000 ≤ c.toNat) && decide (c.toNat ≤ 0x200a)) ||
  c.toNat == 0x2028 || c.toNat == 0x2029 || c.toNat == 0x202f ||
  c.toNat == 0x205f || c.toNat == 0x3000 || c.toNat == 0xfeff

/-- JavaScript `String.prototype.trim`. -/
def jsTrim (s : String) : String :=
  ⟨((s.data.dropWhile jsTrimWs).reverse.dropWhile jsTrimWs).reverse⟩

/-- The client-observable outcome of one `sendMessage` run: the message
list sent as the request body (`none` when no network call was issued),
the final in-memory history, and the successive arguments of the
`saveHistory` calls made. -/
structure SendResult where
  sent : Option (List Message)
  final : List Message
  saved : List (List Message)
deriving DecidableEq, Repr

/-- `sendMessage`, given the trimmed-input gate, the loaded history and the
fetch outcome.  The user message is appended and persisted, the
placeholder is appended (without being persisted), the body is the history
filtered by content different from the sentinel, and the placeholder is
replaced by the reply or by an error message, which is persisted. -/
def sendMessage (input : String) (history : List Message) (fetch : FetchResult) :
    SendResult :=
  let raw := jsTrim input
  if raw = "" then ⟨none, history, []⟩
  else
    let h1 := history ++ [⟨"user", raw⟩]
    let h2 := h1 ++ [placeholderMsg]
    let body := h2.filter (fun m => m.content != "…")
    match fetch with
    | .ok reply => ⟨some body, h1 ++ [⟨"assistant", reply⟩], [h1, h1 ++ [⟨"assistant", reply⟩]]⟩
    | .httpFail st =>
      ⟨some body, h1 ++ [⟨"assistant", "Error: Server error: " ++ st⟩],
        [h1, h1 ++ [⟨"assistant", "Error: Server error: " ++ st⟩]]⟩
    | .jsErr msg =>
      ⟨some body, h1 ++ [⟨"assistant", "Error: " ++ msg⟩],
        [h1, h1 ++ [⟨"assistant", "Error: " ++ msg⟩]]⟩

/-! ## Server: the `/api/chat` handler

The handler receives the decoded JSON body (Flask's
`request.get_json(force=True)`), and takes the upstream completion call as
a function parameter returning either a raised exception's text or a
response object.  The handler's result is `Except.error msg` when an
uncaught Python exception escapes the handler (no JSON error body is
produced then), and otherwise `.ok ((body, status), calls)` where `calls`
counts the upstream invocations. -/

/-- The Python type name of a decoded JSON value, used in the
`AttributeError` text raised by `.get` on a non-dict. -/
def pyTypeName : JsonValue → String
  | .null => "NoneType"
  | .bool _ => "bool"
  | .num tok =>
    if tok.data.any (fun c => c == '.' || c == 'e' || c == 'E') then "float" else "int"
  | .str _ => "str"
  | .arr _ => "list"
  | .obj _ => "dict"

/-- The message of the `AttributeError` raised by calling `.get` on a
value that is not a dict. -/
def attrMsg (v : JsonValue) : String :=
  "\x27" ++ pyTypeName v ++ "\x27 object has no attribute \x27get\x27"

/-- The fixed system prompt prepended by the server. -/
def systemPrompt : String :=
  "You are a friendly, concise, cute assistant that replies helpfully and briefly. " ++
  "Keep responses pleasant and slightly playful, suitable for a pastel-themed chat UI."

/-- The synthesized system message heading every upstream request. -/
def systemMsg : Message := ⟨"system", systemPrompt⟩

/-- The `message` part of one returned choice; `content` may be `None`. -/
structure ChoiceMessage where
  content : Option String

/-- The upstream completion response object as the handler reads it. -/
structure UpstreamResp where
  choices : List ChoiceMessage

/-- The whitespace class stripped by Python `str.strip()`. -/
def pyStripWs (c : Char) : Bool :=
  c == ' ' || c == '\t' || c == '\n' || c == '\r' ||
  c.toNat == 11 || c.toNat == 12 ||
  (decide (28 ≤ c.toNat) && decide (c.toNat ≤ 31)) ||
  c.toNat == 0x85 || c.toNat == 0xa0 || c.toNat == 0x1680 ||
  (decide (0x2000 ≤ c.toNat) && decide (c.toNat ≤ 0x200a)) ||
  c.toNat == 0x2028 || c.toNat == 0x2029 || c.toNat == 0x202f ||
  c.toNat == 0x205f || c.toNat == 0x3000

/-- Python `str.strip()`. -/
def pyStrip (s : String) : String :=
  ⟨((s.data.dropWhile pyStripWs).reverse.dropWhile pyStripWs).reverse⟩

/-- `resp.choices[0].message.content.strip()`: extraction of the reply from
the upstream response; failures here are exceptions raised inside the
handler's `try` block. -/
def extractReply (r : UpstreamResp) : Except String String :=
  match r.choices with
  | [] => .error "list index out of range"
  | c :: _ =>
    match c.content with
    | none => .error "\x27NoneType\x27 object has no attribute \x27strip\x27"
    | some s => .ok (pyStrip s)

/-- A JSON error body, `jsonify` of a dict with one `error` key. -/
def errBody (e : String) : JsonValue := .obj [("error", .str e)]

/-- A JSON success body, `jsonify` of a dict with one `reply` key. -/
def replyBody (r : String) : JsonValue := .obj [("reply", .str r)]

/-- The response produced from the upstream call's outcome: the `try`
block's success path returns the trimmed reply with status 200, and any
exception raised in the block is stringified into a 500 error body. -/
def respOf : Except String UpstreamResp → JsonValue × Nat
  | .error e => (errBody e, 500)
  | .ok r =>
    match extractReply r with
    | .error e => (errBody e, 500)
    | .ok reply => (replyBody reply, 200)

/-- The loop converting the posted `messages` into the upstream list:
each element answers `.get('role')` and `.get('content')`; entries whose
role is not `user` or `assistant` or whose content is not a string are
skipped; a non-dict element raises an uncaught `AttributeError`. -/
def buildMsgs : List JsonValue → Except String (List Message)
  | [] => .ok []
  | m :: ms =>
    match m with
    | .obj fl =>
      match jsonGet fl "role", jsonGet fl "content" with
      | some (.str r), some (.str c) =>
        if r = "user" ∨ r = "assistant" then
          (buildMsgs ms).map (fun rest => ⟨r, c⟩ :: rest)
        else buildMsgs ms
      | _, _ => buildMsgs ms
    | v => .error (attrMsg v)

/-- The `/api/chat` handler over the decoded request body. -/
def chat (body : JsonValue)
    (upstream : List Message → Except String UpstreamResp) :
    Except String ((JsonValue × Nat) × Nat) :=
  match body with
  | .obj fields =>
    match (jsonGet fields "messages").getD (.arr []) with
    | .arr ms =>
      match buildMsgs ms with
      | .error e => .error e
      | .ok oai => .ok (respOf (upstream (systemMsg :: oai)), 1)
    | _ => .ok ((errBody "invalid messages", 400), 0)
  | v => .error (attrMsg v)

/-- Spec-side definition, following the specification's words for the
upstream transform: "the subsequence of input elements with role `user` or
`assistant` and string `content`, in original order" — a per-entry
keep-or-drop decision, to be compared with `buildMsgs`. -/
def keepEntry (m : JsonValue) : Option Message :=
  match m with
  | .obj fl =>
    match jsonGet fl "role", jsonGet fl "content" with
    | some (.str r), some (.str c) =>
      if r = "user" ∨ r = "assistant" then some ⟨r, c⟩ else none
    | _, _ => none
  | _ => none

/-- The spec-side transform of the posted messages. -/
def specKeep (ms : List JsonValue) : List Message := ms.filterMap keepEntry

/-! ## `JSON.stringify` for a history, and `JSON.parse`

`saveHistory` persists `JSON.stringify(history)` where the history is an
array of objects built as `\x7brole: ..., content: ...\x7d`, so the emitted text
is `[` then the records `\x7b"role":R,"content":C\x7d` joined with `,` then `]`,
with the standard JSON string escaping.  `loadHistory` reads the stored
text back through `JSON.parse`. -/

/-- The lower-case hexadecimal digit for `n < 16`. -/
def hexDig (n : Nat) : Char :=
  if n < 10 then Char.ofNat (48 + n) else Char.ofNat (87 + n)

/-- The numeric value of a hexadecimal digit character. -/
def hexVal (c : Char) : Option Nat :=
  if 48 ≤ c.toNat ∧ c.toNat ≤ 57 then some (c.toNat - 48)
  else if 97 ≤ c.toNat ∧ c.toNat ≤ 102 then some (c.toNat - 87)
  else if 65 ≤ c.toNat ∧ c.toNat ≤ 70 then some (c.toNat - 55)
  else none

/-- `JSON.stringify` escaping of one string character: quote and backslash
are backslash-escaped, the named control characters get their short
escapes, the remaining control characters get `\u00xx`, and every other
character is emitted verbatim. -/
def jsEscChar (c : Char) : List Char :=
  if c == '"' then ['\\', '"']
  else if c == '\\' then ['\\', '\\']
  else if c.toNat == 8 then ['\\', 'b']
  else if c == '\t' then ['\\', 't']
  else if c == '\n' then ['\\', 'n']
  else if c.toNat == 12 then ['\\', 'f']
  else if c == '\r' then ['\\', 'r']
  else if c.toNat < 32 then
    ['\\', 'u', '0', '0', hexDig (c.toNat / 16), hexDig (c.toNat % 16)]
  else [c]

/-- `JSON.stringify` escaping of a character sequence. -/
def jsEscStr : List Char → List Char
  | [] => []
  | c :: l => jsEscChar c ++ jsEscStr l

/-- A JSON string literal: the escaped text between double quotes. -/
def strLit (s : String) : List Char := '"' :: (jsEscStr s.data ++ ['"'])

/-- The serialized text of one history record, keys in insertion order. -/
def stringifyMsg (m : Message) : List Char :=
  '{' :: (strLit "role" ++ ':' :: strLit m.role ++
    ',' :: strLit "content" ++ ':' :: strLit m.content) ++ ['}']

/-- The comma-joined serialized records. -/
def histItems : List Message → List Char
  | [] => []
  | [m] => stringifyMsg m
  | m :: m' :: ms => stringifyMsg m ++ ',' :: histItems (m' :: ms)

/-- `JSON.stringify` of the history array. -/
def stringifyHist (h : List Message) : List Char :=
  '[' :: (histItems h ++ [']'])

/-- `saveHistory`: overwrite the stored value with the serialized history. -/
def saveHistory (h : List Message) : Option String := some ⟨stringifyHist h⟩

/-- The JSON document whitespace characters. -/
def jsonWs (c : Char) : Bool := c == ' ' || c == '\t' || c == '\n' || c == '\r'

/-- Skip JSON document whitespace. -/
def skipWs (l : List Char) : List Char := l.dropWhile jsonWs

/-- Drop an expected literal character sequence, or fail. -/
def dropLit : List Char → List Char → Option (List Char)
  | [], l => some l
  | _ :: _, [] => none
  | p :: ps, c :: cs => if p == c then dropLit ps cs else none

/-- Parse the body of a JSON string after the opening quote, returning the
decoded characters and the remainder after the closing quote.  Unescaped
control characters are rejected, as `JSON.parse` rejects them. -/
def parseStrBody : List Char → Option (List Char × List Char)
  | [] => none
  | c :: rest =>
    if c == '"' then some ([], rest)
    else if c == '\\' then
      match rest with
      | [] => none
      | e :: rest2 =>
        if e == '"' then (parseStrBody rest2).map (fun p => ('"' :: p.1, p.2))
        else if e == '\\' then (parseStrBody rest2).map (fun p => ('\\' :: p.1, p.2))
        else if e == '/' then (parseStrBody rest2).map (fun p => ('/' :: p.1, p.2))
        else if e == 'b' then (parseStrBody rest2).map (fun p => (Char.ofNat 8 :: p.1, p.2))
        else if e == 'f' then (parseStrBody rest2).map (fun p => (Char.ofNat 12 :: p.1, p.2))
        else if e == 'n' then (parseStrBody rest2).map (fun p => ('\n' :: p.1, p.2))
        else if e == 'r' then (parseStrBody rest2).map (fun p => ('\r' :: p.1, p.2))
        else if e == 't' then (parseStrBody rest2).map (fun p => ('\t' :: p.1, p.2))
        else if e == 'u' then
          match rest2 with
          | d1 :: d2 :: d3 :: d4 :: rest3 =>
            match hexVal d1, hexVal d2, hexVal d3, hexVal d4 with
            | some a, some b, some g, some d =>
              (parseStrBody rest3).map
                (fun p => (Char.ofNat (4096 * a + 256 * b + 16 * g + d) :: p.1, p.2))
            | _, _, _, _ => none
          | _ => none
        else none
    else if c.toNat < 32 then none
    else (parseStrBody rest).map (fun p => (c :: p.1, p.2))

/-- The digits of a JSON number component. -/
def splitDigits (l : List Char) : List Char × List Char :=
  (l.takeWhile Char.isDigit, l.dropWhile Char.isDigit)

/-- The optional fraction part of a JSON number. -/
def parseFrac (l : List Char) : Option (List Char × List Char) :=
  match l with
  | '.' :: r =>
    let p := splitDigits r
    if p.1.isEmpty then none else some ('.' :: p.1, p.2)
  | _ => some ([], l)

/-- The optional exponent part of a JSON number. -/
def parseExp (l : List Char) : Option (List Char × List Char) :=
  match l with
  | [] => some ([], [])
  | c :: r =>
    if c == 'e' || c == 'E' then
      match r with
      | '+' :: rr =>
        let p := splitDigits rr
        if p.1.isEmpty then none else some (c :: '+' :: p.1, p.2)
      | '-' :: rr =>
        let p := splitDigits rr
        if p.1.isEmpty then none else some (c :: '-' :: p.1, p.2)
      | rr =>
        let p := splitDigits rr
        if p.1.isEmpty then none else some (c :: p.1, p.2)
    else some ([], l)

/-- Attach fraction and exponent to a parsed integer part. -/
def finishNum (tok : List Char) (l : List Char) : Option (JsonValue × List Char) :=
  match parseFrac l with
  | none => none
  | some (f, l2) =>
    match parseExp l2 with
    | none => none
    | some (e, l3) => some (.num ⟨tok ++ f ++ e⟩, l3)

/-- Parse a JSON number token (grammar
`-?(0|[1-9][0-9]*)(\.[0-9]+)?([eE][+-]?[0-9]+)?`). -/
def parseNum (l : List Char) : Option (JsonValue × List Char) :=
  match l with
  | '-' :: l1 =>
    match l1 with
    | '0' :: r => finishNum ['-', '0'] r
    | c :: r =>
      if c.isDigit then
        let p := splitDigits r
        finishNum ('-' :: c :: p.1) p.2
      else none
    | [] => none
  | '0' :: r => finishNum ['0'] r
  | c :: r =>
    if c.isDigit then
      let p := splitDigits r
      finishNum (c :: p.1) p.2
    else none
  | [] => none

mutual

/-- Fuelled recursive-descent parse of one JSON value. -/
def parseVal : Nat → List Char → Option (JsonValue × List Char)
  | 0, _ => none
  | fuel + 1, l =>
    match skipWs l with
    | [] => none
    | c :: r =>
      if c == 'n' then (dropLit ['u', 'l', 'l'] r).map (fun rest => (JsonValue.null, rest))
      else if c == 't' then
        (dropLit ['r', 'u', 'e'] r).map (fun rest => (JsonValue.bool true, rest))
      else if c == 'f' then
        (dropLit ['a', 'l', 's', 'e'] r).map (fun rest => (JsonValue.bool false, rest))
      else if c == '"' then (parseStrBody r).map (fun p => (JsonValue.str ⟨p.1⟩, p.2))
      else if c == '[' then
        match skipWs r with
        | [] => none
        | c2 :: r2 =>
          if c2 == ']' then some (JsonValue.arr [], r2)
          else (parseArrItems fuel (c2 :: r2)).map (fun p => (JsonValue.arr p.1, p.2))
      else if c == '{' then
        match skipWs r with
        | [] => none
        | c2 :: r2 =>
          if c2 == '}' then some (JsonValue.obj [], r2)
          else (parseObjItems fuel (c2 :: r2)).map (fun p => (JsonValue.obj p.1, p.2))
      else parseNum (c :: r)

/-- Fuelled parse of the comma-separated items of a non-empty array, up to
and including the closing bracket. -/
def parseArrItems : Nat → List Char → Option (List JsonValue × List Char)
  | 0, _ => none
  | fuel + 1, l =>
    match parseVal fuel l with
    | none => none
    | some (v, rest) =>
      match skipWs rest with
      | [] => none
      | c :: r =>
        if c == ',' then (parseArrItems fuel r).map (fun p => (v :: p.1, p.2))
        else if c == ']' then some ([v], r)
        else none

/-- Fuelled parse of the members of a non-empty object, up to and
including the closing brace. -/
def parseObjItems : Nat → List Char → Option (List (String × JsonValue) × List Char)
  | 0, _ => none
  | fuel + 1, l =>
    match skipWs l with
    | [] => none
    | c :: r =>
      if c == '"' then
        match parseStrBody r with
        | none => none
        | some (k, rest) =>
          match skipWs rest with
          | [] => none
          | c2 :: r2 =>
            if c2 == ':' then
              match parseVal fuel r2 with
              | none => none
              | some (v, rest2) =>
                match skipWs rest2 with
                | [] => none
                | c3 :: r3 =>
                  if c3 == ',' then
                    (parseObjItems fuel r3).map (fun p => ((⟨k⟩, v) :: p.1, p.2))
                  else if c3 == '}' then some ([(⟨k⟩, v)], r3)
                  else none
            else none
      else none

end

/-- `JSON.parse`: parse one value surrounded by optional whitespace; any
leftover input is a syntax error.  The fuel exceeds the input length,
and every nested descent first consumes at least one character, so the
fuel never runs out on real input. -/
def jsonParse (s : String) : Option JsonValue :=
  match parseVal (s.length + 6) s.data with
  | none => none
  | some (v, rest) => if (skipWs rest).isEmpty then some v else none

/-- `loadHistory`: the stored text parsed back, the empty array when the
store is empty or absent, and the empty array when `JSON.parse` throws. -/
def loadHistory (stored : Option String) : JsonValue :=
  match stored with
  | none => .arr []
  | some raw => if raw = "" then .arr [] else (jsonParse raw).getD (.arr [])

/-- The JSON value representing one history record. -/
def msgJson (m : Message) : JsonValue :=
  .obj [("role", .str m.role), ("content", .str m.content)]

/-- The JSON value representing a history. -/
def histToJson (h : List Message) : JsonValue := .arr (h.map msgJson)

/-! ## A safety predicate for rendered markup

`safeChunk l` holds when every `<` in `l` is immediately followed by `a`,
`/` or `b` (the only continuations the rendering pipeline ever emits:
`<a href=...`, `</a>`, `<br>`), so in particular `l` does not end in `<`.
Such text cannot contain the characters of a `<script>` tag. -/

/-- The characters allowed right after `<` in rendered output. -/
def safeOk (c : Char) : Bool := c == 'a' || c == '/' || c == 'b'

/-- Whether the head of the list is an allowed continuation of `<`. -/
def headSafe : List Char → Bool
  | [] => false
  | c :: _ => safeOk c

/-- Every `<` is immediately followed by an allowed continuation. -/
def safeChunk : List Char → Bool
  | [] => true
  | c :: l => (if c == '<' then headSafe l else true) && safeChunk l

/-! ## Theorems -/

theorem safeChunk_tail {c : Char} {l : List Char} (h : safeChunk (c :: l) = true) :
    safeChunk l = true := by
  rw [safeChunk, Bool.and_eq_true] at h
  exact h.2

theorem safeChunk_append {x y : List Char} (hx : safeChunk x = true)
    (hy : safeChunk y = true) : safeChunk (x ++ y) = true := by
  induction x with
  | nil => simpa using hy
  | cons c x ih =>
    rw [safeChunk, Bool.and_eq_true] at hx
    rw [List.cons_append, safeChunk, Bool.and_eq_true]
    refine ⟨?_, ih hx.2⟩
    by_cases hc : c == '<'
    · rw [if_pos hc] at hx ⊢
      cases x with
      | nil => simp [headSafe] at hx
      | cons d x' => simpa [headSafe] using hx.1
    · rw [if_neg hc]

theorem safeChunk_of_no_lt : ∀ l : List Char,
    l.all (fun x => x != '<') = true → safeChunk l = true := by
  intro l
  induction l with
  | nil => intro _; rfl
  | cons c t ih =>
    intro h
    rw [List.all_cons, Bool.and_eq_true] at h
    have hc : (c == '<') = false := by simpa [bne] using h.1
    rw [safeChunk, hc, if_neg (by simp), Bool.and_eq_true]
    exact ⟨rfl, ih h.2⟩

theorem s_ne_of_safeOk {d : Char} (h : safeOk d = true) : ('s' == d) = false := by
  rw [safeOk, Bool.or_eq_true, Bool.or_eq_true] at h
  rcases h with (h | h) | h <;> rw [eq_of_beq h] <;> rfl

theorem occursB_false_of_safe (p : List Char) :
    ∀ l, safeChunk l = true → occursB ('<' :: 's' :: p) l = false := by
  intro l
  induction l with
  | nil => intro _; rfl
  | cons c t ih =>
    intro h
    rw [occursB, ih (safeChunk_tail h), Bool.or_false]
    by_cases hc : c == '<'
    · rw [safeChunk, if_pos hc, Bool.and_eq_true] at h
      cases t with
      | nil => simp [headSafe] at h
      | cons d t' =>
        have hd : safeOk d = true := by simpa [headSafe] using h.1
        rw [startsWithB, startsWithB, s_ne_of_safeOk hd]
        simp
    · have hcc : ('<' == c) = false := by
        refine beq_eq_false_iff_ne.mpr fun e => hc ?_
        rw [← e]
        decide
      rw [startsWithB, hcc]
      rfl

theorem escChar_no_lt (c : Char) : (escChar c).all (fun x => x != '<') = true := by
  unfold escChar
  repeat' split
  all_goals simp_all [bne]

theorem escapeHtml_no_lt : ∀ l : List Char,
    (escapeHtml l).all (fun x => x != '<') = true := by
  intro l
  induction l with
  | nil => rfl
  | cons c t ih =>
    rw [escapeHtml, List.all_append, escChar_no_lt, ih]
    rfl

theorem all_take {p : Char → Bool} (l : List Char) (n : Nat) (h : l.all p = true) :
    (l.take n).all p = true := by
  rw [List.all_eq_true] at h ⊢
  exact fun x hx => h x (List.take_subset n l hx)

theorem all_drop {p : Char → Bool} (l : List Char) (n : Nat) (h : l.all p = true) :
    (l.drop n).all p = true := by
  rw [List.all_eq_true] at h ⊢
  exact fun x hx => h x (List.drop_subset n l hx)

theorem safeChunk_anchor {url : List Char} (h : url.all (fun x => x != '<') = true) :
    safeChunk (anchorOf url) = true := by
  have hu := safeChunk_of_no_lt url h
  have hpre : safeChunk ("<a href=\"".toList) = true := by decide
  have hmid : safeChunk ("\" target=\"_blank\" rel=\"noopener\">".toList) = true := by decide
  have hpost : safeChunk ("</a>".toList) = true := by decide
  unfold anchorOf
  exact safeChunk_append
    (safeChunk_append (safeChunk_append (safeChunk_append hpre hu) hmid) hu) hpost

theorem linkifyAux_nil : linkifyAux [] = [] := by
  rw [linkifyAux]

theorem linkify_safe : ∀ (n : Nat) (l : List Char), l.length ≤ n →
    l.all (fun x => x != '<') = true → safeChunk (linkifyAux l) = true := by
  intro n
  induction n with
  | zero =>
    intro l hl _
    rw [Nat.le_zero, List.length_eq_zero] at hl
    subst hl
    rw [linkifyAux_nil]
    rfl
  | succ n ih =>
    intro l hl hall
    match l with
    | [] =>
      rw [linkifyAux_nil]
      rfl
    | c :: rest =>
      rw [List.all_cons, Bool.and_eq_true] at hall
      rw [linkifyAux]
      split
      · have hc : (c == '<') = false := by simpa [bne] using hall.1
        rw [safeChunk, hc, if_neg (by simp), Bool.and_eq_true]
        refine ⟨rfl, ih rest (by simpa using hl) hall.2⟩
      · have hfull : (c :: rest).all (fun x => x != '<') = true := by
          rw [List.all_cons, Bool.and_eq_true]
          exact hall
        refine safeChunk_append (safeChunk_anchor (all_take _ _ hfull)) ?_
        refine ih _ ?_ (all_drop _ _ hfull)
        have h1 : 1 ≤ urlLen (c :: rest) := Nat.one_le_iff_ne_zero.mpr (by assumption)
        have hl' : rest.length + 1 ≤ n + 1 := by simpa using hl
        simp only [List.length_drop, List.length_cons]
        omega

theorem nl2br_safe : ∀ l : List Char, safeChunk l = true →
    safeChunk (nl2br l) = true := by
  intro l
  induction l with
  | nil => intro _; rfl
  | cons c t ih =>
    intro h
    rw [safeChunk, Bool.and_eq_true] at h
    rw [nl2br]
    by_cases hn : c == '\n'
    · rw [if_pos hn]
      exact safeChunk_append (by decide) (ih h.2)
    · rw [if_neg hn, List.singleton_append]
      by_cases hc : c == '<'
      · rw [if_pos hc] at h
        cases t with
        | nil => simp [headSafe] at h
        | cons d t' =>
          have hd : safeOk d = true := by simpa [headSafe] using h.1
          have hdn : (d == '\n') = false := by
            rw [safeOk, Bool.or_eq_true, Bool.or_eq_true] at hd
            rcases hd with (hd | hd) | hd <;> rw [eq_of_beq hd] <;> rfl
          have hx := ih h.2
          rw [nl2br, hdn, if_neg (by simp), List.singleton_append] at hx
          rw [nl2br, hdn, if_neg (by simp), List.singleton_append]
          rw [safeChunk, if_pos hc, Bool.and_eq_true]
          exact ⟨by simpa [headSafe] using hd, hx⟩
      · rw [safeChunk, if_neg hc, Bool.and_eq_true]
        exact ⟨rfl, ih h.2⟩

/-- Claim C4: for every Message content string, rendering first
HTML-escapes the content (replacing the ampersand, angle brackets, double
quote and apostrophe), then linkifies bare URLs, then converts newlines to
line breaks (this order is the definition of `renderContent`);
consequently the rendered markup never contains the characters of a raw
`<script>` tag. -/
theorem render_no_script (content : String) :
    occursB ("<script>".toList) (renderContent content) = false := by
  have h1 := escapeHtml_no_lt content.data
  have h2 := linkify_safe (escapeHtml content.data).length _ le_rfl h1
  have h3 := nl2br_safe _ h2
  exact occursB_false_of_safe _ _ h3

/-- Claim C7: for every input string that is empty or consists only of
whitespace, `sendMessage` returns without appending any Message to the
history, without changing persisted storage (no `saveHistory` call), and
without issuing a network call. -/
theorem sendMessage_blank (input : String) (history : List Message)
    (fetch : FetchResult) (h : jsTrim input = "") :
    sendMessage input history fetch = ⟨none, history, []⟩ := by
  simp [sendMessage, h]

/-- Witness for `sendMessage_blank` at a whitespace-only input. -/
theorem sendMessage_blank_w :
    jsTrim " \n " = "" ∧
      sendMessage " \n " [⟨"user", "x"⟩] (.ok "r") = ⟨none, [⟨"user", "x"⟩], []⟩ :=
  ⟨rfl, sendMessage_blank " \n " [⟨"user", "x"⟩] (.ok "r") rfl⟩

/-- Claim C2 (amended): for every history and non-blank input, the body of
the network call issued by `sendMessage` is the history (with the freshly
appended user Message) with every Message whose content equals the
sentinel `…` removed — the filter drops the placeholder, but it equally
drops any other Message, of any role, whose content is the sentinel text,
rather than only the one transient placeholder. -/
theorem sendMessage_sent (input : String) (history : List Message)
    (fetch : FetchResult) (h : jsTrim input ≠ "") :
    (sendMessage input history fetch).sent =
      some ((history ++ [(⟨"user", jsTrim input⟩ : Message)]).filter
        (fun m => m.content != "…")) := by
  rw [sendMessage]
  simp only [if_neg h]
  cases fetch <;>
    simp [List.filter_append, placeholderMsg, List.filter_cons]

/-- Witness for `sendMessage_sent`. -/
theorem sendMessage_sent_w :
    jsTrim "hi" ≠ "" ∧
      (sendMessage "hi" [] (.ok "r")).sent = some [⟨"user", "hi"⟩] := by
  refine ⟨by decide, ?_⟩
  exact (sendMessage_sent "hi" [] (.ok "r") (by decide)).trans (by decide)

/-- Counterexample to claim C2 as stated: a user Message whose content
happens to equal the sentinel text is not retained in the request body —
with loaded history `[⟨user, …⟩]` and input `hi`, the body sent is just
`[⟨user, hi⟩]`, so the sentinel-content user Message was removed along
with the placeholder. -/
theorem sendMessage_sent_cex :
    (sendMessage "hi" [⟨"user", "…"⟩] (.ok "r")).sent = some [⟨"user", "hi"⟩] ∧
      (⟨"user", "…"⟩ : Message) ∉ [(⟨"user", "hi"⟩ : Message)] :=
  ⟨rfl, by decide⟩

theorem buildMsgs_cons_obj (fl : List (String × JsonValue)) (ms : List JsonValue) :
    buildMsgs (JsonValue.obj fl :: ms) =
      match keepEntry (.obj fl) with
      | some x => (buildMsgs ms).map (fun r => x :: r)
      | none => buildMsgs ms := by
  rw [keepEntry]
  rcases h1 : jsonGet fl "role" with _ | rv
  · simp [buildMsgs, h1]
  · rcases h2 : jsonGet fl "content" with _ | cv
    · cases rv <;> simp [buildMsgs, h1, h2]
    · cases rv <;> cases cv <;> simp [buildMsgs, h1, h2]
      split <;> simp

theorem buildMsgs_spec : ∀ ms : List JsonValue, ms.all JsonValue.isObj = true →
    buildMsgs ms = .ok (specKeep ms) := by
  intro ms
  induction ms with
  | nil => intro _; rfl
  | cons m ms ih =>
    intro h
    rw [List.all_cons, Bool.and_eq_true] at h
    cases m with
    | obj fl =>
      rw [buildMsgs_cons_obj]
      have ihh := ih h.2
      rw [specKeep, List.filterMap_cons]
      cases hk : keepEntry (.obj fl) with
      | none => simpa [specKeep] using ihh
      | some x =>
        rw [ihh]
        simp [specKeep, Except.map]
    | null => exact absurd h.1 (by simp [JsonValue.isObj])
    | bool b => exact absurd h.1 (by simp [JsonValue.isObj])
    | num t => exact absurd h.1 (by simp [JsonValue.isObj])
    | str s => exact absurd h.1 (by simp [JsonValue.isObj])
    | arr es => exact absurd h.1 (by simp [JsonValue.isObj])

/-- Claim C1 (amended): for every list `messages` all of whose elements
are JSON objects, the upstream request built by the chat endpoint is the
fixed system Message followed by exactly the subsequence of elements whose
role is `user` or `assistant` and whose content is a string, in original
order (`specKeep`, the spec-side filter), and the upstream call is made
exactly once with it.  The restriction to object elements is forced: a
non-object element makes the handler raise before building any upstream
request (see the counterexample). -/
theorem chat_transform (fields : List (String × JsonValue)) (ms : List JsonValue)
    (upstream : List Message → Except String UpstreamResp)
    (hm : jsonGet fields "messages" = some (.arr ms))
    (ho : ms.all JsonValue.isObj = true) :
    chat (.obj fields) upstream =
      .ok (respOf (upstream (systemMsg :: specKeep ms)), 1) := by
  have hb := buildMsgs_spec ms ho
  simp [chat, hm, hb]

/-- Witness for `chat_transform`. -/
theorem chat_transform_w :
    chat (.obj [("messages",
        .arr [.obj [("role", .str "user"), ("content", .str "hi")]])])
      (fun _ => .error "boom") = .ok ((errBody "boom", 500), 1) :=
  (chat_transform [("messages",
      .arr [.obj [("role", .str "user"), ("content", .str "hi")]])]
    [.obj [("role", .str "user"), ("content", .str "hi")]]
    (fun _ => .error "boom") rfl rfl).trans rfl

/-- Counterexample to claim C1 as stated over every list: with
`messages = [1]`, the element `1` is not a dict, `.get` raises an
uncaught `AttributeError`, and no upstream request (which the claim says
would be the system Message alone) is ever built or sent. -/
theorem chat_transform_cex :
    chat (.obj [("messages", .arr [.num "1"])]) (fun _ => .error "boom") =
        .error "\x27int\x27 object has no attribute \x27get\x27" ∧
      chat (.obj [("messages", .arr [.num "1"])]) (fun _ => .error "boom") ≠
        .ok (respOf ((fun _ => Except.error "boom")
          (systemMsg :: specKeep [.num "1"])), 1) :=
  ⟨rfl, fun h => nomatch h⟩

/-- Claim C3: for every request body whose `messages` field is present but
not a list, the chat endpoint responds with status 400 and the
`invalid messages` error body, and the upstream API is not called. -/
theorem chat_invalid (fields : List (String × JsonValue)) (v : JsonValue)
    (upstream : List Message → Except String UpstreamResp)
    (hp : jsonGet fields "messages" = some v) (hv : v.isArr = false) :
    chat (.obj fields) upstream = .ok ((errBody "invalid messages", 400), 0) := by
  cases v with
  | arr es => simp [JsonValue.isArr] at hv
  | null => simp [chat, hp]
  | bool b => simp [chat, hp]
  | num t => simp [chat, hp]
  | str s => simp [chat, hp]
  | obj fl => simp [chat, hp]

/-- Witness for `chat_invalid` at the spec's example body. -/
theorem chat_invalid_w :
    chat (.obj [("messages", .str "not-a-list")]) (fun _ => .error "e") =
      .ok ((errBody "invalid messages", 400), 0) :=
  chat_invalid [("messages", .str "not-a-list")] (.str "not-a-list")
    (fun _ => .error "e") rfl rfl

/-- Claim C8: whenever the upstream completion call raises, the chat
endpoint responds exactly once with status 500 and the stringified
description as the error body, and the upstream call count is exactly 1 —
no retry. -/
theorem chat_upstream_error (fields : List (String × JsonValue))
    (ms : List JsonValue) (oai : List Message)
    (upstream : List Message → Except String UpstreamResp) (e : String)
    (hm : (jsonGet fields "messages").getD (.arr []) = .arr ms)
    (hb : buildMsgs ms = .ok oai)
    (he : upstream (systemMsg :: oai) = .error e) :
    chat (.obj fields) upstream = .ok ((errBody e, 500), 1) := by
  simp [chat, hm, hb, respOf, he]

/-- Witness for `chat_upstream_error`. -/
theorem chat_upstream_error_w :
    chat (.obj []) (fun _ => .error "auth failed") =
      .ok ((errBody "auth failed", 500), 1) :=
  chat_upstream_error [] [] [] (fun _ => .error "auth failed") "auth failed"
    rfl rfl rfl

/-- Claim C9: for every request body object without a `messages` field,
the endpoint treats `messages` as empty: the upstream request is exactly
the fixed system Message, and the endpoint proceeds to the upstream call
(count 1) rather than failing validation. -/
theorem chat_no_messages (fields : List (String × JsonValue))
    (upstream : List Message → Except String UpstreamResp)
    (h : jsonGet fields "messages" = none) :
    chat (.obj fields) upstream = .ok (respOf (upstream [systemMsg]), 1) := by
  simp [chat, h, buildMsgs]

/-- Witness for `chat_no_messages`. -/
theorem chat_no_messages_w :
    chat (.obj []) (fun _ => .error "down") = .ok ((errBody "down", 500), 1) :=
  (chat_no_messages [] (fun _ => .error "down") rfl).trans rfl

/-- Claim C10: for request bodies that are valid JSON but not objects —
the array `[1]` and the string `x` — the handler raises an uncaught
`AttributeError` at the `.get` access, for every possible upstream (so
before any upstream call), and produces no JSON error response of the
documented 400/500 shape. -/
theorem chat_nonobject_body (upstream : List Message → Except String UpstreamResp) :
    chat (.arr [.num "1"]) upstream =
        .error "\x27list\x27 object has no attribute \x27get\x27" ∧
      chat (.str "x") upstream =
        .error "\x27str\x27 object has no attribute \x27get\x27" :=
  ⟨rfl, rfl⟩

theorem hexVal_hexDig : ∀ n : Nat, n < 16 → hexVal (hexDig n) = some n := by decide

theorem parseStrBody_quote (rest : List Char) :
    parseStrBody ('"' :: rest) = some ([], rest) := by
  rw [parseStrBody.eq_def]
  rfl

theorem parseStrBody_esc_quote (rest : List Char) :
    parseStrBody ('\\' :: '"' :: rest) =
      (parseStrBody rest).map (fun p => ('"' :: p.1, p.2)) := by
  rw [parseStrBody.eq_def]
  rfl

theorem parseStrBody_esc_bslash (rest : List Char) :
    parseStrBody ('\\' :: '\\' :: rest) =
      (parseStrBody rest).map (fun p => ('\\' :: p.1, p.2)) := by
  rw [parseStrBody.eq_def]
  rfl

theorem parseStrBody_esc_b (rest : List Char) :
    parseStrBody ('\\' :: 'b' :: rest) =
      (parseStrBody rest).map (fun p => (Char.ofNat 8 :: p.1, p.2)) := by
  rw [parseStrBody.eq_def]
  rfl

theorem parseStrBody_esc_t (rest : List Char) :
    parseStrBody ('\\' :: 't' :: rest) =
      (parseStrBody rest).map (fun p => ('\t' :: p.1, p.2)) := by
  rw [parseStrBody.eq_def]
  rfl

theorem parseStrBody_esc_n (rest : List Char) :
    parseStrBody ('\\' :: 'n' :: rest) =
      (parseStrBody rest).map (fun p => ('\n' :: p.1, p.2)) := by
  rw [parseStrBody.eq_def]
  rfl

theorem parseStrBody_esc_f (rest : List Char) :
    parseStrBody ('\\' :: 'f' :: rest) =
      (parseStrBody rest).map (fun p => (Char.ofNat 12 :: p.1, p.2)) := by
  rw [parseStrBody.eq_def]
  rfl

theorem parseStrBody_esc_r (rest : List Char) :
    parseStrBody ('\\' :: 'r' :: rest) =
      (parseStrBody rest).map (fun p => ('\r' :: p.1, p.2)) := by
  rw [parseStrBody.eq_def]
  rfl

theorem parseStrBody_esc_u (d1 d2 d3 d4 : Char) (rest : List Char)
    (a b g d : Nat) (h1 : hexVal d1 = some a) (h2 : hexVal d2 = some b)
    (h3 : hexVal d3 = some g) (h4 : hexVal d4 = some d) :
    parseStrBody ('\\' :: 'u' :: d1 :: d2 :: d3 :: d4 :: rest) =
      (parseStrBody rest).map
        (fun p => (Char.ofNat (4096 * a + 256 * b + 16 * g + d) :: p.1, p.2)) := by
  rw [parseStrBody.eq_def]
  show (match hexVal d1, hexVal d2, hexVal d3, hexVal d4 with
    | some a, some b, some g, some d =>
      Option.map (fun (p : List Char × List Char) =>
        (Char.ofNat (4096 * a + 256 * b + 16 * g + d) :: p.1, p.2))
        (parseStrBody rest)
    | _, _, _, _ => none) = _
  rw [h1, h2, h3, h4]

theorem parseStrBody_plain (c : Char) (rest : List Char)
    (h1 : (c == '"') = false) (h2 : (c == '\\') = false)
    (h3 : ¬ c.toNat < 32) :
    parseStrBody (c :: rest) =
      (parseStrBody rest).map (fun p => (c :: p.1, p.2)) := by
  rw [parseStrBody.eq_def]
  simp only [h1, h2, Bool.false_eq_true, if_false]
  rw [if_neg h3]

theorem parseStr_esc : ∀ (s rest : List Char),
    parseStrBody (jsEscStr s ++ '"' :: rest) = some (s, rest) := by
  intro s
  induction s with
  | nil => intro rest; exact parseStrBody_quote rest
  | cons c s ih =>
    intro rest
    rw [jsEscStr, List.append_assoc, jsEscChar]
    by_cases h1 : c == '"'
    · cases eq_of_beq h1
      rw [if_pos h1]
      simp only [List.cons_append, List.nil_append]
      rw [parseStrBody_esc_quote, ih rest]
      rfl
    rw [if_neg h1]
    by_cases h2 : c == '\\'
    · cases eq_of_beq h2
      rw [if_pos h2]
      simp only [List.cons_append, List.nil_append]
      rw [parseStrBody_esc_bslash, ih rest]
      rfl
    rw [if_neg h2]
    by_cases h3 : c.toNat == 8
    · rw [if_pos h3]
      have hc : Char.ofNat 8 = c := by
        rw [← eq_of_beq h3]
        exact Char.ofNat_toNat c
      simp only [List.cons_append, List.nil_append]
      rw [parseStrBody_esc_b, ih rest, hc]
      rfl
    rw [if_neg h3]
    by_cases h4 : c == '\t'
    · cases eq_of_beq h4
      rw [if_pos h4]
      simp only [List.cons_append, List.nil_append]
      rw [parseStrBody_esc_t, ih rest]
      rfl
    rw [if_neg h4]
    by_cases h5 : c == '\n'
    · cases eq_of_beq h5
      rw [if_pos h5]
      simp only [List.cons_append, List.nil_append]
      rw [parseStrBody_esc_n, ih rest]
      rfl
    rw [if_neg h5]
    by_cases h6 : c.toNat == 12
    · rw [if_pos h6]
      have hc : Char.ofNat 12 = c := by
        rw [← eq_of_beq h6]
        exact Char.ofNat_toNat c
      simp only [List.cons_append, List.nil_append]
      rw [parseStrBody_esc_f, ih rest, hc]
      rfl
    rw [if_neg h6]
    by_cases h7 : c == '\r'
    · cases eq_of_beq h7
      rw [if_pos h7]
      simp only [List.cons_append, List.nil_append]
      rw [parseStrBody_esc_r, ih rest]
      rfl
    rw [if_neg h7]
    by_cases h8 : c.toNat < 32
    · rw [if_pos h8]
      have hd : c.toNat / 16 < 16 := by omega
      have hm : c.toNat % 16 < 16 := Nat.mod_lt _ (by omega)
      simp only [List.cons_append, List.nil_append]
      rw [parseStrBody_esc_u '0' '0' (hexDig (c.toNat / 16)) (hexDig (c.toNat % 16)) _
        0 0 (c.toNat / 16) (c.toNat % 16) rfl rfl
        (hexVal_hexDig _ hd) (hexVal_hexDig _ hm), ih rest]
      show some (Char.ofNat (4096 * 0 + 256 * 0 + 16 * (c.toNat / 16) + c.toNat % 16) :: s,
        rest) = some (c :: s, rest)
      rw [show 4096 * 0 + 256 * 0 + 16 * (c.toNat / 16) + c.toNat % 16 = c.toNat from by
        omega]
      rw [Char.ofNat_toNat]
    · rw [if_neg h8]
      simp only [Bool.not_eq_true] at h1 h2
      simp only [List.cons_append, List.nil_append]
      rw [parseStrBody_plain c _ h1 h2 h8, ih rest]
      rfl

theorem skipWs_cons (c : Char) (l : List Char) (h : jsonWs c = false) :
    skipWs (c :: l) = c :: l := by
  simp [skipWs, List.dropWhile, h]

theorem parseVal_strLit (f : Nat) (s : String) (rest : List Char) :
    parseVal (f + 1) (strLit s ++ rest) = some (.str s, rest) := by
  rw [strLit]
  simp only [List.cons_append, List.append_assoc, List.singleton_append]
  simp only [parseVal]
  rw [skipWs_cons _ _ (by decide)]
  simp only [parseStr_esc]
  rfl

theorem parseVal_msg (f : Nat) (m : Message) (rest : List Char) :
    parseVal (f + 1 + 1 + 1 + 1) (stringifyMsg m ++ rest) = some (msgJson m, rest) := by
  rw [stringifyMsg]
  simp only [strLit, List.cons_append, List.append_assoc, List.singleton_append,
    List.nil_append]
  simp only [parseVal, parseObjItems]
  simp only [skipWs_cons _ _ (by decide : jsonWs '{' = false)]
  simp +decide [parseStr_esc, skipWs, List.dropWhile, jsonWs]
  rfl

theorem parseArrItems_last (fuel : Nat) (l rest : List Char) (v : JsonValue)
    (hv : parseVal fuel l = some (v, ']' :: rest)) :
    parseArrItems (fuel + 1) l = some ([v], rest) := by
  simp only [parseArrItems, hv]
  simp +decide [skipWs, List.dropWhile, jsonWs]

theorem parseArrItems_step (fuel : Nat) (l rest : List Char) (v : JsonValue)
    (hv : parseVal fuel l = some (v, ',' :: rest)) :
    parseArrItems (fuel + 1) l =
      (parseArrItems fuel rest).map (fun p => (v :: p.1, p.2)) := by
  simp only [parseArrItems, hv]
  simp +decide [skipWs, List.dropWhile, jsonWs]

theorem parseItems_hist : ∀ (H : List Message) (m : Message) (f : Nat) (rest : List Char),
    parseArrItems (H.length + f + 1 + 1 + 1 + 1 + 1) (histItems (m :: H) ++ ']' :: rest) =
      some ((m :: H).map msgJson, rest) := by
  intro H
  induction H with
  | nil =>
    intro m f rest
    rw [histItems]
    simp only [List.length_nil]
    rw [parseArrItems_last _ _ _ _ (parseVal_msg (0 + f) m (']' :: rest))]
    rfl
  | cons m2 H ih =>
    intro m f rest
    rw [histItems]
    simp only [List.length_cons, List.cons_append, List.append_assoc]
    rw [show H.length + 1 + f + 1 + 1 + 1 + 1 + 1 =
      H.length + f + 1 + 1 + 1 + 1 + 1 + 1 from by omega]
    rw [parseArrItems_step _ _ _ _
      (parseVal_msg (H.length + f + 1) m (',' :: (histItems (m2 :: H) ++ ']' :: rest)))]
    rw [ih m2 f rest]
    rfl

theorem histItems_cons (m : Message) (L : List Message) :
    ∃ t, histItems (m :: L) = '{' :: t := by
  cases L with
  | nil => exact ⟨_, rfl⟩
  | cons m2 L' => exact ⟨_, rfl⟩

theorem parseVal_arr_nil (fuel : Nat) (rest : List Char) :
    parseVal (fuel + 1) ('[' :: ']' :: rest) = some (.arr [], rest) := rfl

theorem parseVal_arr_obj (fuel : Nat) (r : List Char) :
    parseVal (fuel + 1) ('[' :: '{' :: r) =
      (parseArrItems fuel ('{' :: r)).map (fun p => (JsonValue.arr p.1, p.2)) := rfl

theorem parseVal_hist : ∀ (H : List Message) (f : Nat) (rest : List Char),
    parseVal (H.length + f + 1 + 1 + 1 + 1 + 1 + 1) (stringifyHist H ++ rest) =
      some (histToJson H, rest) := by
  intro H f rest
  rw [stringifyHist]
  cases H with
  | nil =>
    simp only [histItems, List.length_nil, List.nil_append, List.cons_append,
      List.singleton_append]
    rw [parseVal_arr_nil]
    rfl
  | cons m H' =>
    obtain ⟨t, ht⟩ := histItems_cons m H'
    simp only [List.length_cons, List.cons_append, List.append_assoc,
      List.singleton_append]
    rw [ht]
    simp only [List.cons_append]
    rw [parseVal_arr_obj]
    rw [← List.cons_append, ← ht]
    simp only [List.nil_append]
    rw [show H'.length + 1 + f + 1 + 1 + 1 + 1 + 1 =
      H'.length + (f + 1) + 1 + 1 + 1 + 1 + 1 from by omega]
    rw [parseItems_hist H' m (f + 1) rest]
    rfl

theorem le_histItems_len : ∀ H : List Message, H.length ≤ (histItems H).length + 1
  | [] => by simp [histItems]
  | [m] => by simp [histItems, stringifyMsg]
  | m :: m2 :: H => by
    rw [histItems]
    have := le_histItems_len (m2 :: H)
    simp only [List.length_append, List.length_cons, stringifyMsg] at *
    omega

theorem le_stringifyHist_len (H : List Message) :
    H.length ≤ (stringifyHist H).length := by
  rw [stringifyHist]
  have := le_histItems_len H
  simp only [List.length_cons, List.length_append]
  omega

theorem string_mk_data (l : List Char) : (⟨l⟩ : String).data = l := rfl

theorem string_mk_length (l : List Char) : (⟨l⟩ : String).length = l.length := rfl

/-- Claim C5: for every history (entries with string roles and contents),
`loadHistory` applied to the storage produced by `saveHistory` returns the
JSON array carrying exactly the same roles, contents and order; when
nothing was ever stored, `loadHistory` returns the empty array. -/
theorem loadHistory_roundtrip :
    (∀ H : List Message, loadHistory (saveHistory H) = histToJson H) ∧
      loadHistory none = JsonValue.arr [] := by
  refine ⟨?_, rfl⟩
  intro H
  have hne : (⟨stringifyHist H⟩ : String) ≠ "" := by
    intro h
    have hd := congrArg String.data h
    rw [string_mk_data, stringifyHist] at hd
    exact List.noConfusion hd
  rw [saveHistory, loadHistory, if_neg hne]
  rw [jsonParse]
  rw [string_mk_data, string_mk_length]
  rw [show (stringifyHist H).length + 6 =
    H.length + ((stringifyHist H).length - H.length) + 1 + 1 + 1 + 1 + 1 + 1 from by
      have := le_stringifyHist_len H
      omega]
  rw [show stringifyHist H =
    stringifyHist H ++ ([] : List Char) from (List.append_nil _).symm]
  rw [parseVal_hist]
  rfl

/-- Claim C6: `loadHistory` is total (it is a function in this embedding:
every stored value yields a result rather than an exception), returns the
empty array when the store is absent, and returns the empty array whenever
the stored text does not parse as JSON. -/
theorem loadHistory_fail_soft :
    loadHistory none = JsonValue.arr [] ∧
      ∀ raw : String, jsonParse raw = none →
        loadHistory (some raw) = JsonValue.arr [] := by
  refine ⟨rfl, ?_⟩
  intro raw h
  rw [loadHistory]
  by_cases hr : raw = ""
  · rw [if_pos hr]
  · rw [if_neg hr, h]
    rfl

/-- Witness for `loadHistory_fail_soft` at the unparsable stored text `[`. -/
theorem loadHistory_fail_soft_w :
    jsonParse "[" = none ∧ loadHistory (some "[") = JsonValue.arr [] :=
  ⟨rfl, loadHistory_fail_soft.2 "[" rfl⟩

end Webapp
